import Mathlib

/-!
Shallow embedding of the wonnx session facade (src/wonnx/src/lib.rs) together
with models of the pipeline components it drives (optimizer, IR builder and
GPU executor).  The facade code (opset resolution, session constructors) is
translated directly from the source; the components whose source files are not
available (ir.rs, optimizer.rs, gpu.rs) are modelled from the specification,
as marked in their doc comments.
-/

/-- An ONNX operator-set import: a (domain, version) pair, as read via
`opset_import.get_domain()` and `opset_import.get_version()`. -/
structure OperatorSetIdProto where
  domain : String
  version : Int
deriving DecidableEq

/-- A node of the ONNX graph: identity, operator type and the ordered
input/output tensor names. -/
structure NodeProto where
  name : String
  opType : String
  input : List String
  output : List String
deriving DecidableEq

/-- The graph section of an ONNX model: nodes, declared inputs and outputs,
and initializer tensor names. -/
structure GraphProto where
  node : List NodeProto
  input : List String
  output : List String
  initializer : List String
deriving DecidableEq

/-- A parsed ONNX model: its opset imports and its graph. -/
structure ModelProto where
  opset_import : List OperatorSetIdProto
  graph : GraphProto
deriving DecidableEq

/-- The error enumeration of the session facade (`SessionError` in lib.rs).
Payloads of errors raised by external collaborators are kept as strings. -/
inductive SessionError where
  | ModelDeserializationError (msg : String)
  | ModelReadingError (msg : String)
  | InvalidInput (name : String)
  | InvalidOutput (name : String)
  | DuplicateOnnxOpset (first second : Int)
  | UnknownOpset (domain : String)
  | UnknownOnnxOpsetVersion
  | IrError (msg : String)
  | GpuError (msg : String)
  | OptimizerError (msg : String)
deriving DecidableEq

/-- Optional configuration for session creation (`SessionConfig` in lib.rs). -/
structure SessionConfig where
  outputs : Option (List String)

/-- `SessionConfig::new` sets the default options: `outputs` is `None`. -/
def SessionConfig.new : SessionConfig := ⟨none⟩

/-- `SessionConfig::with_outputs` replaces the `outputs` field. -/
def SessionConfig.with_outputs (c : SessionConfig) (o : Option (List String)) : SessionConfig :=
  { c with outputs := o }

/-- The loop over `model.get_opset_import()` in `Session::from_model_with_config`
(lib.rs lines 157-177): scans the imports in order, records the version of the
first default-domain import, fails on a default-domain import with a different
version (`DuplicateOnnxOpset`) and on any non-default domain (`UnknownOpset`). -/
def resolveOpsetLoop : List OperatorSetIdProto → Option Int → Except SessionError (Option Int)
  | [], acc => .ok acc
  | imp :: rest, acc =>
    if imp.domain = "" then
      match acc with
      | some v =>
        if imp.version ≠ v then
          .error (.DuplicateOnnxOpset v imp.version)
        else
          resolveOpsetLoop rest acc
      | none => resolveOpsetLoop rest (some imp.version)
    else
      .error (.UnknownOpset imp.domain)

/-- The opset-resolution step of `Session::from_model_with_config`: the loop
followed by `.ok_or(SessionError::UnknownOnnxOpsetVersion)` (lib.rs line 180). -/
def resolveOpsetVersion (imports : List OperatorSetIdProto) : Except SessionError Int :=
  match resolveOpsetLoop imports none with
  | .error e => .error e
  | .ok none => .error .UnknownOnnxOpsetVersion
  | .ok (some v) => .ok v

/-- The intermediate representation of a graph: the nodes, the declared inputs
and initializers, and the requested output names. -/
structure IrGraph where
  nodes : List NodeProto
  inputs : List String
  initializers : List String
  outputs : List String
deriving DecidableEq

/-- All tensor names known to the graph: node outputs, declared graph inputs
and initializers. -/
def tensorIndex (g : GraphProto) : List String :=
  (g.node.foldr (fun n acc => n.output ++ acc) []) ++ g.input ++ g.initializer

/-- Modelled from the spec: `ir::Node::from_model` (file ir.rs is not under
src/).  Per section 4.1, the builder indexes all tensor names and, when an
explicit output subset is configured, validates that each requested name
exists in the index, an unknown name being a fatal validation error; when no
subset is configured, all graph-declared outputs are requested. -/
def buildIr (g : GraphProto) (outputNames : Option (List String)) : Except SessionError IrGraph :=
  match outputNames with
  | none => .ok ⟨g.node, g.input, g.initializer, g.output⟩
  | some req =>
    match req.find? (fun o => decide (o ∉ tensorIndex g)) with
    | some bad => .error (.InvalidOutput bad)
    | none => .ok ⟨g.node, g.input, g.initializer, req⟩

/-- The concatenation of all node input names. -/
def inputsOf (nodes : List NodeProto) : List String :=
  nodes.foldr (fun n acc => n.input ++ acc) []

/-- Whether node `n` produces at least one tensor in `needed`. -/
def producesAny (needed : List String) (n : NodeProto) : Bool :=
  n.output.any (fun o => decide (o ∈ needed))

/-- One step of the reverse-reachability closure: the inputs of the nodes
producing a needed tensor that are not yet needed themselves. -/
def newNeeded (nodes : List NodeProto) (needed : List String) : List String :=
  ((inputsOf (nodes.filter (producesAny needed))).filter (fun t => decide (t ∉ needed))).dedup

/-- Fuelled iteration of the closure step until no new tensor is needed. -/
def closureIter (nodes : List NodeProto) : Nat → List String → List String
  | 0, needed => needed
  | fuel + 1, needed =>
    match newNeeded nodes needed with
    | [] => needed
    | t :: ts => closureIter nodes fuel (needed ++ t :: ts)

/-- The set (as a list) of all tensor names transitively needed to compute the
requested tensors `req`. -/
def neededClosure (nodes : List NodeProto) (req : List String) : List String :=
  closureIter nodes ((inputsOf nodes).dedup.length + 1) req

/-- Modelled from the spec: `Optimizer::optimize` (file optimizer.rs is not
under src/).  Per section 4.2, the required pass is exact reachability
pruning: compute the reverse-reachable tensor set from the required outputs
and retain exactly the nodes producing a tensor in that set. -/
def Optimizer.optimize (g : IrGraph) : IrGraph :=
  { g with nodes := g.nodes.filter (producesAny (neededClosure g.nodes g.outputs)) }

/-- A compiled dispatch: the buffer names it reads, the buffer names it
writes, and the (deterministic) shader function turning the read bytes into
the written bytes. -/
structure CompiledDispatch where
  reads : List String
  writes : List String
  shader : List (List Nat) → List (List Nat)

/-- Modelled from the spec: the `GpuModel` built by `GpuModel::from` (file
gpu.rs is not under src/).  It owns the topologically ordered dispatch plan,
the device buffer contents (initializers pre-loaded), and the declared input
and requested output names. -/
structure GpuModel where
  plan : List CompiledDispatch
  buffers : String → List Nat
  inputNames : List String
  outputNames : List String

/-- Pointwise update of a buffer environment. -/
def updateBuf (e : String → List Nat) (x : String) (v : List Nat) : String → List Nat :=
  fun y => if y = x then v else e y

/-- Upload a list of (name, bytes) pairs into the buffer environment. -/
def uploadAll (e : String → List Nat) (pairs : List (String × List Nat)) : String → List Nat :=
  pairs.foldl (fun acc p => updateBuf acc p.1 p.2) e

/-- Execute one dispatch: read its input buffers, run the shader, write the
results to its output buffers. -/
def execDispatch (e : String → List Nat) (d : CompiledDispatch) : String → List Nat :=
  uploadAll e (d.writes.zip (d.shader (d.reads.map e)))

/-- Submit the whole plan in order. -/
def execPlan (e : String → List Nat) (plan : List CompiledDispatch) : String → List Nat :=
  plan.foldl execDispatch e

/-- Modelled from the spec: `GpuModel::infer` (file gpu.rs is not under src/).
Per section 4.4, it validates presence of every required input (a missing
input is a fatal error naming it), uploads the input bytes, submits the plan
in order, and reads back the requested outputs.  The returned model carries
the device buffers as execution left them. -/
def GpuModel.infer (gm : GpuModel) (inputs : List (String × List Nat)) :
    Except SessionError (List (String × List Nat) × GpuModel) :=
  match gm.inputNames.find? (fun i => decide (i ∉ inputs.map Prod.fst)) with
  | some missing => .error (.InvalidInput missing)
  | none =>
    let env := uploadAll gm.buffers inputs
    let env2 := execPlan env gm.plan
    .ok (gm.outputNames.map (fun o => (o, env2 o)), { gm with buffers := env2 })

/-- An inference session: a loaded and compiled model (`Session` in lib.rs). -/
structure Session where
  gpu_model : GpuModel

/-- `Session::run`: performs inference on the session's GPU model.  The
session resulting from the call (with the buffers as the call left them) is
returned alongside the outputs, making the device state explicit. -/
def Session.run (s : Session) (inputs : List (String × List Nat)) :
    Except SessionError (List (String × List Nat) × Session) :=
  match s.gpu_model.infer inputs with
  | .error e => .error e
  | .ok r => .ok (r.1, ⟨r.2⟩)

/-- The tail of `Session::from_model_with_config` after opset resolution:
build the IR, optimize it, and lower it through the GPU compiler `lower`. -/
def buildAndLower (lower : IrGraph → Int → Except SessionError GpuModel)
    (graph : GraphProto) (config : SessionConfig) (v : Int) : Except SessionError Session :=
  match buildIr graph config.outputs with
  | .error e => .error e
  | .ok ir =>
    match lower (Optimizer.optimize ir) v with
    | .error e => .error e
    | .ok gm => .ok ⟨gm⟩

/-- `Session::from_model_with_config` (lib.rs lines 148-187): resolve the
opset version, build and optimize the IR, and lower it to a GPU model.  The
GPU compiler, an absent external component, is passed in as `lower`. -/
def Session.fromModelWithConfig (lower : IrGraph → Int → Except SessionError GpuModel)
    (model : ModelProto) (config : SessionConfig) : Except SessionError Session :=
  match resolveOpsetVersion model.opset_import with
  | .error e => .error e
  | .ok v => buildAndLower lower model.graph config v

/-- `Session::from_model`: construction with the default configuration. -/
def Session.fromModel (lower : IrGraph → Int → Except SessionError GpuModel)
    (model : ModelProto) : Except SessionError Session :=
  Session.fromModelWithConfig lower model SessionConfig.new

/-- `Session::from_bytes_with_config`: parse the bytes (via the external
protobuf parser `parse`, wrapping its error) and construct the session. -/
def Session.fromBytesWithConfig (parse : List Nat → Except String ModelProto)
    (lower : IrGraph → Int → Except SessionError GpuModel)
    (bytes : List Nat) (config : SessionConfig) : Except SessionError Session :=
  match parse bytes with
  | .error e => .error (.ModelDeserializationError e)
  | .ok m => Session.fromModelWithConfig lower m config

/-- `Session::from_bytes`: parse the bytes and construct with defaults. -/
def Session.fromBytes (parse : List Nat → Except String ModelProto)
    (lower : IrGraph → Int → Except SessionError GpuModel)
    (bytes : List Nat) : Except SessionError Session :=
  match parse bytes with
  | .error e => .error (.ModelDeserializationError e)
  | .ok m => Session.fromModel lower m

/-- `Session::from_path_with_config`: the result of `std::fs::read` is passed
in explicitly (`.error` when the read failed, `.ok bytes` otherwise); a read
failure becomes `ModelReadingError`, then the bytes are parsed and the session
is constructed. -/
def Session.fromPathWithConfig (parse : List Nat → Except String ModelProto)
    (lower : IrGraph → Int → Except SessionError GpuModel)
    (readResult : Except String (List Nat)) (config : SessionConfig) :
    Except SessionError Session :=
  match readResult with
  | .error e => .error (.ModelReadingError e)
  | .ok bytes =>
    match parse bytes with
    | .error e => .error (.ModelDeserializationError e)
    | .ok m => Session.fromModelWithConfig lower m config

/-- `Session::from_path`: read, parse, construct with defaults. -/
def Session.fromPath (parse : List Nat → Except String ModelProto)
    (lower : IrGraph → Int → Except SessionError GpuModel)
    (readResult : Except String (List Nat)) : Except SessionError Session :=
  match readResult with
  | .error e => .error (.ModelReadingError e)
  | .ok bytes =>
    match parse bytes with
    | .error e => .error (.ModelDeserializationError e)
    | .ok m => Session.fromModel lower m

/-- A trivial GPU compiler used to instantiate counterexamples: lowering
always succeeds with an empty model. -/
def trivialLower : IrGraph → Int → Except SessionError GpuModel :=
  fun _ _ => .ok ⟨[], fun _ => [], [], []⟩

/-- The empty graph section, used to instantiate concrete models. -/
def graphEmpty : GraphProto := ⟨[], [], [], []⟩

/-- Whether an error is a duplicate-opset error carrying the versions `a` and
`b` (in either order). -/
def namesBothVersions (e : SessionError) (a b : Int) : Bool :=
  match e with
  | .DuplicateOnnxOpset x y => (x = a && y = b) || (x = b && y = a)
  | _ => false

/-- Whether an error is an unknown-opset error carrying the domain `d`. -/
def namesDomain (e : SessionError) (d : String) : Bool :=
  match e with
  | .UnknownOpset x => x = d
  | _ => false

/-- A tensor name is transitively needed for the requested outputs: it is a
requested output itself, or an input of a node one of whose outputs is
needed. -/
inductive Needs (nodes : List NodeProto) (requested : List String) : String → Prop where
  | output (t : String) : t ∈ requested → Needs nodes requested t
  | producer (n : NodeProto) (o t : String) : n ∈ nodes → o ∈ n.output →
      Needs nodes requested o → t ∈ n.input → Needs nodes requested t

/-- A node is a transitive producer of the requested outputs: it belongs to
the graph and at least one of its outputs is a needed tensor. -/
def IsTransitiveProducer (nodes : List NodeProto) (requested : List String)
    (n : NodeProto) : Prop :=
  n ∈ nodes ∧ ∃ o ∈ n.output, Needs nodes requested o

/-- A two-branch graph used to exercise the optimizer: `reluA` feeds the
requested output, `reluB` feeds an unrequested one. -/
def reluA : NodeProto := ⟨"a", "Relu", ["x"], ["y"]⟩

/-- The second branch of the concrete optimizer example. -/
def reluB : NodeProto := ⟨"b", "Relu", ["x"], ["z"]⟩

/-- A concrete model with the two-branch graph. -/
def branchModel : ModelProto := ⟨[⟨"", 13⟩], ⟨[reluA, reluB], ["x"], ["y", "z"], []⟩⟩

/-- A configuration requesting only the output of the first branch. -/
def branchConfig : SessionConfig := ⟨some ["y"]⟩

/-- The IR the builder produces for `branchModel` under `branchConfig`. -/
def branchIr : IrGraph := ⟨[reluA, reluB], ["x"], [], ["y"]⟩

/-- The buffer names written by the dispatches of a plan, in order. -/
def planWrites (plan : List CompiledDispatch) : List String :=
  plan.foldr (fun d acc => d.writes ++ acc) []

/-- The topological-order invariant of a compiled plan relative to a base
buffer set `S`: every dispatch reads only buffers in `S` or buffers written
by an earlier dispatch (spec section 3: every dispatch appears strictly
after all dispatches producing its inputs). -/
def Covered (S : String → Prop) : List CompiledDispatch → Prop
  | [] => True
  | d :: rest => (∀ r ∈ d.reads, S r) ∧ Covered (fun x => S x ∨ x ∈ d.writes) rest

/-- The base buffer set stable across inference calls: the declared inputs
(re-uploaded on every call) and the buffers the plan never writes (the
initializers, untouched by execution). -/
def baseNames (gm : GpuModel) : String → Prop :=
  fun x => x ∈ gm.inputNames ∨ x ∉ planWrites gm.plan

/-- The output mapping of one call of `Session::run`. -/
def runOutputs (s : Session) (inputs : List (String × List Nat)) :
    Except SessionError (List (String × List Nat)) :=
  match Session.run s inputs with
  | .error e => .error e
  | .ok r => .ok r.1

/-- The output mapping of the second of two back-to-back calls of
`Session::run` with identical inputs on the same session. -/
def runAgainOutputs (s : Session) (inputs : List (String × List Nat)) :
    Except SessionError (List (String × List Nat)) :=
  match Session.run s inputs with
  | .error e => .error e
  | .ok r =>
    match Session.run r.2 inputs with
    | .error e => .error e
    | .ok r2 => .ok r2.1

/-- The single dispatch of the determinism example: copies buffer x into
buffer y. -/
def copyDispatch : CompiledDispatch := ⟨["x"], ["y"], fun args => [args.headD []]⟩

/-- The GPU model of the determinism example. -/
def gmCopy : GpuModel := ⟨[copyDispatch], fun _ => [], ["x"], ["y"]⟩

/-- The concrete inputs of the determinism example. -/
def inputsCopy : List (String × List Nat) := [("x", [1, 2, 3])]

/-- The GPU model of the missing-input example: it declares the input x. -/
def gmMissing : GpuModel := ⟨[], fun _ => [], ["x"], []⟩

theorem resolveOpsetLoop_skip (ps rest : List OperatorSetIdProto) (w : Int)
    (h : ∀ j ∈ ps, j.domain = "" ∧ j.version = w) :
    resolveOpsetLoop (ps ++ rest) (some w) = resolveOpsetLoop rest (some w) := by
  induction ps with
  | nil => rfl
  | cons p ps ih =>
    obtain ⟨hd, hv⟩ := h p (by simp)
    rw [List.cons_append]
    simp only [resolveOpsetLoop, hd, hv]
    simp only [if_true, ne_eq, not_true_eq_false, if_false, ite_self]
    exact ih (fun j hj => h j (by simp [hj]))

theorem resolveOpsetLoop_duplicate_ne :
    ∀ (l : List OperatorSetIdProto) (acc : Option Int) (a b : Int),
      resolveOpsetLoop l acc = .error (.DuplicateOnnxOpset a b) → a ≠ b := by
  intro l
  induction l with
  | nil => intro acc a b h; simp [resolveOpsetLoop] at h
  | cons i is ih =>
    intro acc a b h
    by_cases hd : i.domain = ""
    · cases acc with
      | none =>
        simp only [resolveOpsetLoop, hd, if_true] at h
        exact ih _ _ _ h
      | some v =>
        by_cases hv : i.version = v
        · simp [resolveOpsetLoop, hd, hv] at h
          exact ih _ _ _ h
        · simp [resolveOpsetLoop, hd, hv] at h
          obtain ⟨h1, h2⟩ := h
          subst h1; subst h2
          exact fun hab => hv hab.symm
    · simp [resolveOpsetLoop, hd] at h

theorem resolveOpsetLoop_pre_default (pre : List OperatorSetIdProto) (w : Int)
    (rest : List OperatorSetIdProto)
    (hpre : ∀ j ∈ pre, j.domain = "" ∧ j.version = w) (hne : pre ≠ []) :
    resolveOpsetLoop (pre ++ rest) none = resolveOpsetLoop rest (some w) := by
  cases pre with
  | nil => exact absurd rfl hne
  | cons p ps =>
    obtain ⟨hpd, hpv⟩ := hpre p (by simp)
    have hskip := resolveOpsetLoop_skip ps rest w (fun j hj => hpre j (by simp [hj]))
    rw [List.cons_append]
    simp [resolveOpsetLoop, hpd, hpv, hskip]

/-- C3 (amended): a model whose opset-import list begins with two
default-domain imports carrying versions 11 and 12 (in either order) fails
construction with `DuplicateOnnxOpset` naming both versions, whatever imports
follow. -/
theorem duplicate_opset_leading_imports
    (lower : IrGraph → Int → Except SessionError GpuModel) (cfg : SessionConfig)
    (g : GraphProto) (v w : Int) (rest : List OperatorSetIdProto)
    (h : v = 11 ∧ w = 12 ∨ v = 12 ∧ w = 11) :
    Session.fromModelWithConfig lower ⟨⟨"", v⟩ :: ⟨"", w⟩ :: rest, g⟩ cfg
      = .error (.DuplicateOnnxOpset v w) := by
  have hvw : w ≠ v := by
    rcases h with ⟨h1, h2⟩ | ⟨h1, h2⟩ <;> subst h1 <;> subst h2 <;> decide
  simp [Session.fromModelWithConfig, resolveOpsetVersion, resolveOpsetLoop, hvw]

theorem duplicate_opset_leading_imports_witness :
    ((11 : Int) = 11 ∧ (12 : Int) = 12 ∨ (11 : Int) = 12 ∧ (12 : Int) = 11)
    ∧ Session.fromModelWithConfig trivialLower ⟨[⟨"", 11⟩, ⟨"", 12⟩], graphEmpty⟩
        SessionConfig.new = .error (.DuplicateOnnxOpset 11 12) :=
  ⟨Or.inl ⟨rfl, rfl⟩,
    duplicate_opset_leading_imports trivialLower SessionConfig.new graphEmpty 11 12 []
      (Or.inl ⟨rfl, rfl⟩)⟩

/-- C3 counterexample: this model declares the default domain exactly twice,
once with version 11 and once with version 12, yet construction fails with
`UnknownOpset "ai.onnx.ml"`, an error naming neither version, because the
non-default-domain import is scanned first. -/
theorem duplicate_opset_claim_counterexample :
    ((([⟨"ai.onnx.ml", 1⟩, ⟨"", 11⟩, ⟨"", 12⟩] : List OperatorSetIdProto).filter
        (fun i => i.domain == "")).map OperatorSetIdProto.version = [11, 12])
    ∧ Session.fromModelWithConfig trivialLower
        ⟨[⟨"ai.onnx.ml", 1⟩, ⟨"", 11⟩, ⟨"", 12⟩], graphEmpty⟩ SessionConfig.new
        = .error (.UnknownOpset "ai.onnx.ml")
    ∧ namesBothVersions (.UnknownOpset "ai.onnx.ml") 11 12 = false :=
  ⟨by decide, rfl, rfl⟩

/-- C4 (amended): a model whose opset-import list is empty (so in particular
has no default-domain import) fails construction with
`UnknownOnnxOpsetVersion`, and no session is produced. -/
theorem empty_opset_imports_unknown_version
    (lower : IrGraph → Int → Except SessionError GpuModel) (cfg : SessionConfig)
    (g : GraphProto) :
    Session.fromModelWithConfig lower ⟨[], g⟩ cfg = .error .UnknownOnnxOpsetVersion := rfl

/-- C4 counterexample: this model has zero default-domain imports, yet
construction fails with `UnknownOpset "ai.onnx.ml"` rather than with the
unknown-opset-version error, because the non-default import is rejected
first. -/
theorem no_default_opset_claim_counterexample :
    (([⟨"ai.onnx.ml", 1⟩] : List OperatorSetIdProto).filter (fun i => i.domain == "") = [])
    ∧ Session.fromModelWithConfig trivialLower ⟨[⟨"ai.onnx.ml", 1⟩], graphEmpty⟩
        SessionConfig.new = .error (.UnknownOpset "ai.onnx.ml")
    ∧ SessionError.UnknownOpset "ai.onnx.ml" ≠ SessionError.UnknownOnnxOpsetVersion :=
  ⟨by decide, rfl, by decide⟩

/-- C5 (amended): if an import with a non-default domain `d` appears after a
(possibly empty) prefix of default-domain imports that all carry one common
version, construction fails with `UnknownOpset d`, naming that domain. -/
theorem unknown_domain_first_offender
    (lower : IrGraph → Int → Except SessionError GpuModel) (cfg : SessionConfig)
    (g : GraphProto) (pre : List OperatorSetIdProto) (w : Int) (d : String) (v : Int)
    (rest : List OperatorSetIdProto)
    (hpre : ∀ j ∈ pre, j.domain = "" ∧ j.version = w) (hd : d ≠ "") :
    Session.fromModelWithConfig lower ⟨pre ++ ⟨d, v⟩ :: rest, g⟩ cfg
      = .error (.UnknownOpset d) := by
  by_cases hne : pre = []
  · subst hne
    simp [Session.fromModelWithConfig, resolveOpsetVersion, resolveOpsetLoop, hd]
  · have hloop := resolveOpsetLoop_pre_default pre w (⟨d, v⟩ :: rest) hpre hne
    have hlast : resolveOpsetLoop (⟨d, v⟩ :: rest) (some w) = .error (.UnknownOpset d) := by
      simp [resolveOpsetLoop, hd]
    simp [Session.fromModelWithConfig, resolveOpsetVersion, hloop, hlast]

theorem unknown_domain_first_offender_witness :
    (∀ j ∈ ([⟨"", 9⟩] : List OperatorSetIdProto), j.domain = "" ∧ j.version = 9)
    ∧ "ai.onnx.ml" ≠ ""
    ∧ Session.fromModelWithConfig trivialLower
        ⟨[⟨"", 9⟩, ⟨"ai.onnx.ml", 1⟩], graphEmpty⟩ SessionConfig.new
        = .error (.UnknownOpset "ai.onnx.ml") :=
  ⟨by decide, by decide,
    unknown_domain_first_offender trivialLower SessionConfig.new graphEmpty [⟨"", 9⟩] 9
      "ai.onnx.ml" 1 [] (by decide) (by decide)⟩

/-- C5 counterexample: this model imports the non-default domain
`"ai.onnx.ml"`, yet construction fails with `DuplicateOnnxOpset 11 12`, an
error that does not name the domain, because the conflicting default-domain
pair is scanned first. -/
theorem unknown_domain_claim_counterexample :
    (([⟨"", 11⟩, ⟨"", 12⟩, ⟨"ai.onnx.ml", 1⟩] : List OperatorSetIdProto).any
        (fun i => i.domain == "ai.onnx.ml") = true)
    ∧ Session.fromModelWithConfig trivialLower
        ⟨[⟨"", 11⟩, ⟨"", 12⟩, ⟨"ai.onnx.ml", 1⟩], graphEmpty⟩ SessionConfig.new
        = .error (.DuplicateOnnxOpset 11 12)
    ∧ namesDomain (.DuplicateOnnxOpset 11 12) "ai.onnx.ml" = false :=
  ⟨by decide, rfl, rfl⟩

/-- C8: repeated default-domain imports that all carry the same version `v`
are accepted: construction proceeds past opset resolution using `v`, and a
`DuplicateOnnxOpset a b` error can only ever be raised with `a ≠ b`. -/
theorem repeated_identical_opset_accepted
    (lower : IrGraph → Int → Except SessionError GpuModel) (cfg : SessionConfig)
    (g : GraphProto) (v : Int) (imports : List OperatorSetIdProto)
    (hne : imports ≠ []) (hall : ∀ j ∈ imports, j.domain = "" ∧ j.version = v) :
    Session.fromModelWithConfig lower ⟨imports, g⟩ cfg = buildAndLower lower g cfg v
    ∧ (∀ (l : List OperatorSetIdProto) (acc : Option Int) (a b : Int),
        resolveOpsetLoop l acc = .error (.DuplicateOnnxOpset a b) → a ≠ b) := by
  constructor
  · have hloop := resolveOpsetLoop_pre_default imports v [] hall hne
    rw [List.append_nil] at hloop
    simp [Session.fromModelWithConfig, resolveOpsetVersion, hloop, resolveOpsetLoop]
  · exact resolveOpsetLoop_duplicate_ne

theorem repeated_identical_opset_accepted_witness :
    ([⟨"", 13⟩, ⟨"", 13⟩] : List OperatorSetIdProto) ≠ []
    ∧ (∀ j ∈ ([⟨"", 13⟩, ⟨"", 13⟩] : List OperatorSetIdProto), j.domain = "" ∧ j.version = 13)
    ∧ (Session.fromModelWithConfig trivialLower ⟨[⟨"", 13⟩, ⟨"", 13⟩], graphEmpty⟩
          SessionConfig.new = buildAndLower trivialLower graphEmpty SessionConfig.new 13
      ∧ (∀ (l : List OperatorSetIdProto) (acc : Option Int) (a b : Int),
          resolveOpsetLoop l acc = .error (.DuplicateOnnxOpset a b) → a ≠ b)) :=
  ⟨by decide, by decide,
    repeated_identical_opset_accepted trivialLower SessionConfig.new graphEmpty 13
      [⟨"", 13⟩, ⟨"", 13⟩] (by decide) (by decide)⟩

/-- C9: when the import list is a prefix of mutually consistent default-domain
imports followed by a first offending import `i`, the error is decided by `i`:
a non-default domain yields `UnknownOpset` naming it, and a conflicting
default-domain version yields `DuplicateOnnxOpset` with the recorded version
first; construction returns exactly that one error. -/
theorem first_offending_import_decides_error
    (lower : IrGraph → Int → Except SessionError GpuModel) (cfg : SessionConfig)
    (g : GraphProto) (pre : List OperatorSetIdProto) (w : Int)
    (i : OperatorSetIdProto) (rest : List OperatorSetIdProto)
    (hpre : ∀ j ∈ pre, j.domain = "" ∧ j.version = w) :
    (i.domain ≠ "" →
      Session.fromModelWithConfig lower ⟨pre ++ i :: rest, g⟩ cfg
        = .error (.UnknownOpset i.domain))
    ∧ (i.domain = "" → pre ≠ [] → i.version ≠ w →
      Session.fromModelWithConfig lower ⟨pre ++ i :: rest, g⟩ cfg
        = .error (.DuplicateOnnxOpset w i.version)) := by
  constructor
  · intro hd
    by_cases hne : pre = []
    · subst hne
      simp [Session.fromModelWithConfig, resolveOpsetVersion, resolveOpsetLoop, hd]
    · have hloop := resolveOpsetLoop_pre_default pre w (i :: rest) hpre hne
      have hlast : resolveOpsetLoop (i :: rest) (some w) = .error (.UnknownOpset i.domain) := by
        simp [resolveOpsetLoop, hd]
      simp [Session.fromModelWithConfig, resolveOpsetVersion, hloop, hlast]
  · intro hd hne hv
    have hloop := resolveOpsetLoop_pre_default pre w (i :: rest) hpre hne
    have hlast : resolveOpsetLoop (i :: rest) (some w)
        = .error (.DuplicateOnnxOpset w i.version) := by
      simp [resolveOpsetLoop, hd, hv]
    simp [Session.fromModelWithConfig, resolveOpsetVersion, hloop, hlast]

theorem first_offending_import_decides_error_witness :
    (∀ j ∈ ([⟨"", 7⟩] : List OperatorSetIdProto), j.domain = "" ∧ j.version = 7)
    ∧ Session.fromModelWithConfig trivialLower ⟨[⟨"", 7⟩, ⟨"", 9⟩], graphEmpty⟩
        SessionConfig.new = .error (.DuplicateOnnxOpset 7 9) :=
  ⟨by decide,
    (first_offending_import_decides_error trivialLower SessionConfig.new graphEmpty
        [⟨"", 7⟩] 7 ⟨"", 9⟩ [] (by decide)).2 (by decide) (by decide) (by decide)⟩

/-- C10: the convenience constructors are equivalent to the configured ones:
`from_model` equals `from_model_with_config` with the default configuration,
and whenever the file read succeeds with bytes `b`, `from_path` (resp.
`from_path_with_config`) equals `from_bytes` (resp. `from_bytes_with_config`)
on `b`, for every parser and every GPU compiler. -/
theorem convenience_constructors_equivalent :
    (∀ (lower : IrGraph → Int → Except SessionError GpuModel) (m : ModelProto),
      Session.fromModel lower m = Session.fromModelWithConfig lower m SessionConfig.new)
    ∧ (∀ (parse : List Nat → Except String ModelProto)
        (lower : IrGraph → Int → Except SessionError GpuModel) (b : List Nat),
      Session.fromPath parse lower (.ok b) = Session.fromBytes parse lower b)
    ∧ (∀ (parse : List Nat → Except String ModelProto)
        (lower : IrGraph → Int → Except SessionError GpuModel) (b : List Nat)
        (cfg : SessionConfig),
      Session.fromPathWithConfig parse lower (.ok b) cfg
        = Session.fromBytesWithConfig parse lower b cfg) :=
  ⟨fun _ _ => rfl, fun _ _ _ => rfl, fun _ _ _ _ => rfl⟩

theorem mem_inputsOf (nodes : List NodeProto) (t : String) :
    t ∈ inputsOf nodes ↔ ∃ n, n ∈ nodes ∧ t ∈ n.input := by
  induction nodes with
  | nil => simp [inputsOf]
  | cons n ns ih =>
    simp only [inputsOf, List.foldr_cons, List.mem_append] at ih ⊢
    constructor
    · rintro (h | h)
      · exact ⟨n, by simp, h⟩
      · obtain ⟨m, hm, ht⟩ := ih.mp h
        exact ⟨m, by simp [hm], ht⟩
    · rintro ⟨m, hm, ht⟩
      rcases List.mem_cons.mp hm with he | hm2
      · subst he; exact Or.inl ht
      · exact Or.inr (ih.mpr ⟨m, hm2, ht⟩)

theorem producesAny_eq_true (needed : List String) (n : NodeProto) :
    producesAny needed n = true ↔ ∃ o ∈ n.output, o ∈ needed := by
  simp [producesAny]

theorem mem_newNeeded (nodes : List NodeProto) (needed : List String) (t : String) :
    t ∈ newNeeded nodes needed ↔
      (∃ n, n ∈ nodes ∧ producesAny needed n = true ∧ t ∈ n.input) ∧ t ∉ needed := by
  unfold newNeeded
  rw [List.mem_dedup, List.mem_filter, mem_inputsOf]
  simp only [List.mem_filter, decide_eq_true_eq]
  tauto

theorem subset_closureIter (nodes : List NodeProto) :
    ∀ (fuel : Nat) (needed : List String) (t : String),
      t ∈ needed → t ∈ closureIter nodes fuel needed := by
  intro fuel
  induction fuel with
  | zero => intro needed t ht; exact ht
  | succ k ih =>
    intro needed t ht
    cases h : newNeeded nodes needed with
    | nil => simp only [closureIter, h]; exact ht
    | cons a as =>
      simp only [closureIter, h]
      exact ih _ _ (List.mem_append_left _ ht)

theorem closureIter_sound (nodes : List NodeProto) (req : List String) :
    ∀ (fuel : Nat) (needed : List String),
      (∀ t ∈ needed, Needs nodes req t) →
      ∀ t ∈ closureIter nodes fuel needed, Needs nodes req t := by
  intro fuel
  induction fuel with
  | zero => intro needed hinv t ht; exact hinv t ht
  | succ k ih =>
    intro needed hinv t ht
    cases h : newNeeded nodes needed with
    | nil => simp only [closureIter, h] at ht; exact hinv t ht
    | cons a as =>
      simp only [closureIter, h] at ht
      refine ih _ ?_ t ht
      intro u hu
      rcases List.mem_append.mp hu with hu1 | hu2
      · exact hinv u hu1
      · have hu3 : u ∈ newNeeded nodes needed := by rw [h]; exact hu2
        obtain ⟨⟨n, hn, hprod, hin⟩, _⟩ := (mem_newNeeded nodes needed u).mp hu3
        obtain ⟨o, ho, honeeded⟩ := (producesAny_eq_true needed n).mp hprod
        exact Needs.producer n o u hn ho (hinv o honeeded) hin

theorem length_filter_le_of_imp (l : List String) (p q : String → Bool)
    (himp : ∀ a, q a = true → p a = true) :
    (l.filter q).length ≤ (l.filter p).length := by
  induction l with
  | nil => simp
  | cons b l ih =>
    by_cases hq : q b = true
    · have hp := himp b hq
      simp only [List.filter_cons, hq, if_true, hp, List.length_cons]
      exact Nat.succ_le_succ ih
    · have hq2 : q b = false := by revert hq; cases q b <;> simp
      by_cases hp : p b = true
      · simp only [List.filter_cons, hq2, if_false, hp, if_true, List.length_cons,
          Bool.false_eq_true]
        exact Nat.le_succ_of_le ih
      · have hp2 : p b = false := by revert hp; cases p b <;> simp
        simp only [List.filter_cons, hq2, hp2, if_false, Bool.false_eq_true]
        exact ih

theorem length_filter_lt_of_imp (l : List String) (p q : String → Bool)
    (himp : ∀ a, q a = true → p a = true) :
    ∀ (a : String), a ∈ l → p a = true → q a = false →
      (l.filter q).length < (l.filter p).length := by
  induction l with
  | nil => intro a ha; cases ha
  | cons b l ih =>
    intro a ha hpa hqa
    rcases List.mem_cons.mp ha with he | hm
    · subst he
      simp only [List.filter_cons, hqa, if_false, hpa, if_true, List.length_cons,
        Bool.false_eq_true]
      exact Nat.lt_succ_of_le (length_filter_le_of_imp l p q himp)
    · by_cases hq : q b = true
      · have hp := himp b hq
        simp only [List.filter_cons, hq, if_true, hp, List.length_cons]
        exact Nat.succ_lt_succ (ih a hm hpa hqa)
      · have hq2 : q b = false := by revert hq; cases q b <;> simp
        by_cases hp : p b = true
        · simp only [List.filter_cons, hq2, if_false, hp, if_true, List.length_cons,
            Bool.false_eq_true]
          exact Nat.lt_succ_of_lt (ih a hm hpa hqa)
        · have hp2 : p b = false := by revert hp; cases p b <;> simp
          simp only [List.filter_cons, hq2, hp2, if_false, Bool.false_eq_true]
          exact ih a hm hpa hqa

theorem closureIter_fix (nodes : List NodeProto) :
    ∀ (fuel : Nat) (needed : List String),
      ((inputsOf nodes).dedup.filter (fun t => decide (t ∉ needed))).length < fuel →
      newNeeded nodes (closureIter nodes fuel needed) = [] := by
  intro fuel
  induction fuel with
  | zero => intro needed h; omega
  | succ k ih =>
    intro needed h
    cases hnn : newNeeded nodes needed with
    | nil => simp only [closureIter, hnn]
    | cons a as =>
      simp only [closureIter, hnn]
      apply ih
      have ha : a ∈ newNeeded nodes needed := by rw [hnn]; simp
      obtain ⟨⟨n, hn, hprod, hain⟩, hanot⟩ := (mem_newNeeded nodes needed a).mp ha
      have hauniv : a ∈ (inputsOf nodes).dedup := by
        rw [List.mem_dedup, mem_inputsOf]; exact ⟨n, hn, hain⟩
      have hlt : ((inputsOf nodes).dedup.filter
            (fun t => decide (t ∉ needed ++ a :: as))).length
          < ((inputsOf nodes).dedup.filter (fun t => decide (t ∉ needed))).length := by
        apply length_filter_lt_of_imp _ _ _ ?_ a hauniv ?_ ?_
        · intro x hx
          simp only [decide_eq_true_eq, List.mem_append] at hx ⊢
          exact fun hmem => hx (Or.inl hmem)
        · simp only [decide_eq_true_eq]
          exact hanot
        · simp
      omega

theorem mem_neededClosure (nodes : List NodeProto) (req : List String) (t : String) :
    t ∈ neededClosure nodes req ↔ Needs nodes req t := by
  constructor
  · intro ht
    exact closureIter_sound nodes req _ req (fun u hu => Needs.output u hu) t ht
  · intro hneeds
    induction hneeds with
    | output u hu => exact subset_closureIter nodes _ req u hu
    | producer n o u hn ho hno hin iho =>
      by_cases hu : u ∈ neededClosure nodes req
      · exact hu
      · exfalso
        have hfix : newNeeded nodes (neededClosure nodes req) = [] := by
          apply closureIter_fix nodes _ req
          exact Nat.lt_succ_of_le (List.length_filter_le _ _)
        have hmem : u ∈ newNeeded nodes (neededClosure nodes req) := by
          rw [mem_newNeeded]
          refine ⟨⟨n, hn, ?_, hin⟩, hu⟩
          rw [producesAny_eq_true]
          exact ⟨o, ho, iho⟩
        rw [hfix] at hmem
        cases hmem

theorem buildIr_ok_fields (g : GraphProto) (cfgOutputs : Option (List String))
    (ir : IrGraph) (h : buildIr g cfgOutputs = .ok ir) :
    ir.nodes = g.node ∧ ir.outputs = cfgOutputs.getD g.output := by
  cases cfgOutputs with
  | none =>
    simp only [buildIr, Except.ok.injEq] at h
    subst h
    exact ⟨rfl, rfl⟩
  | some req =>
    simp only [buildIr] at h
    cases hfind : req.find? (fun o => decide (o ∉ tensorIndex g)) with
    | some bad =>
      simp only [hfind] at h
      exact Except.noConfusion h
    | none =>
      simp only [hfind, Except.ok.injEq] at h
      subst h
      exact ⟨rfl, rfl⟩

/-- C1: the node set retained after optimization equals exactly the set of
transitive producers of the requested output tensors, where the requested set
is the configured `outputs` list when present and the graph-declared outputs
otherwise: no node producing (even partially) a needed tensor is dropped, and
no node outside that set is retained. -/
theorem optimize_retains_exactly_transitive_producers
    (m : ModelProto) (cfg : SessionConfig) (ir : IrGraph)
    (h : buildIr m.graph cfg.outputs = .ok ir) (n : NodeProto) :
    n ∈ (Optimizer.optimize ir).nodes
      ↔ IsTransitiveProducer m.graph.node (cfg.outputs.getD m.graph.output) n := by
  obtain ⟨hn, ho⟩ := buildIr_ok_fields m.graph cfg.outputs ir h
  have hopt : (Optimizer.optimize ir).nodes
      = ir.nodes.filter (producesAny (neededClosure ir.nodes ir.outputs)) := rfl
  rw [hopt, hn, ho, List.mem_filter]
  unfold IsTransitiveProducer
  constructor
  · rintro ⟨hmem, hpa⟩
    obtain ⟨o, ho2, hoC⟩ := (producesAny_eq_true _ n).mp hpa
    exact ⟨hmem, o, ho2, (mem_neededClosure _ _ o).mp hoC⟩
  · rintro ⟨hmem, o, ho2, hno⟩
    refine ⟨hmem, (producesAny_eq_true _ n).mpr ⟨o, ho2, ?_⟩⟩
    exact (mem_neededClosure _ _ o).mpr hno

theorem optimize_retains_exactly_transitive_producers_witness :
    buildIr branchModel.graph branchConfig.outputs = .ok branchIr
    ∧ (reluA ∈ (Optimizer.optimize branchIr).nodes
      ↔ IsTransitiveProducer branchModel.graph.node
          (branchConfig.outputs.getD branchModel.graph.output) reluA) :=
  ⟨rfl,
    optimize_retains_exactly_transitive_producers branchModel branchConfig branchIr rfl reluA⟩

theorem Needs.mono (nodes sub : List NodeProto) (req : List String) (t : String)
    (hsub : ∀ n ∈ sub, n ∈ nodes) (h : Needs sub req t) : Needs nodes req t := by
  induction h with
  | output u hu => exact Needs.output u hu
  | producer n o u hn ho hno hin ih => exact Needs.producer n o u (hsub n hn) ho ih hin

theorem needs_filter_closure (g : IrGraph) (t : String) :
    Needs (g.nodes.filter (producesAny (neededClosure g.nodes g.outputs))) g.outputs t
      ↔ Needs g.nodes g.outputs t := by
  constructor
  · intro h
    exact Needs.mono _ _ _ _ (fun n hn => (List.mem_filter.mp hn).1) h
  · intro h
    induction h with
    | output u hu => exact Needs.output u hu
    | producer n o u hn ho hno hin ih =>
      refine Needs.producer n o u ?_ ho ih hin
      rw [List.mem_filter]
      refine ⟨hn, (producesAny_eq_true _ n).mpr ⟨o, ho, ?_⟩⟩
      exact (mem_neededClosure _ _ o).mpr hno

/-- C7: the optimizer is idempotent: applying it to an already optimized
graph is a no-op, producing a graph with the identical retained node list and
identical tensor wiring (all fields unchanged). -/
theorem optimize_idempotent (g : IrGraph) :
    Optimizer.optimize (Optimizer.optimize g) = Optimizer.optimize g := by
  have hAA : (g.nodes.filter (producesAny (neededClosure g.nodes g.outputs))).filter
        (producesAny (neededClosure
          (g.nodes.filter (producesAny (neededClosure g.nodes g.outputs))) g.outputs))
      = g.nodes.filter (producesAny (neededClosure g.nodes g.outputs)) := by
    rw [List.filter_eq_self]
    intro n hn
    have h2 := (List.mem_filter.mp hn).2
    obtain ⟨o, ho, hoc⟩ := (producesAny_eq_true _ n).mp h2
    refine (producesAny_eq_true _ n).mpr ⟨o, ho, ?_⟩
    rw [mem_neededClosure, needs_filter_closure]
    exact (mem_neededClosure _ _ o).mp hoc
  have h1 : Optimizer.optimize (Optimizer.optimize g) = IrGraph.mk
      ((g.nodes.filter (producesAny (neededClosure g.nodes g.outputs))).filter
        (producesAny (neededClosure
          (g.nodes.filter (producesAny (neededClosure g.nodes g.outputs))) g.outputs)))
      g.inputs g.initializers g.outputs := rfl
  have h2 : Optimizer.optimize g = IrGraph.mk
      (g.nodes.filter (producesAny (neededClosure g.nodes g.outputs)))
      g.inputs g.initializers g.outputs := rfl
  rw [h1, h2, hAA]

theorem uploadAll_not_mem : ∀ (pairs : List (String × List Nat)) (e : String → List Nat)
    (x : String), x ∉ pairs.map Prod.fst → uploadAll e pairs x = e x := by
  intro pairs
  induction pairs with
  | nil => intro e x _; rfl
  | cons p ps ih =>
    intro e x hx
    have hx1 : x ≠ p.1 := fun he => hx (by simp [he])
    have hx2 : x ∉ ps.map Prod.fst := fun h => hx (by simp [h])
    show uploadAll (updateBuf e p.1 p.2) ps x = e x
    rw [ih _ x hx2]
    simp [updateBuf, hx1]

theorem uploadAll_agree : ∀ (pairs : List (String × List Nat)) (e₁ e₂ : String → List Nat)
    (x : String), (e₁ x = e₂ x ∨ x ∈ pairs.map Prod.fst) →
    uploadAll e₁ pairs x = uploadAll e₂ pairs x := by
  intro pairs
  induction pairs with
  | nil =>
    intro e₁ e₂ x h
    rcases h with h | h
    · exact h
    · cases h
  | cons p ps ih =>
    intro e₁ e₂ x h
    show uploadAll (updateBuf e₁ p.1 p.2) ps x = uploadAll (updateBuf e₂ p.1 p.2) ps x
    apply ih
    by_cases hxp : x = p.1
    · left
      simp [updateBuf, hxp]
    · have h2 : e₁ x = e₂ x ∨ x ∈ ps.map Prod.fst := by
        rcases h with h | h
        · exact Or.inl h
        · simp only [List.map_cons, List.mem_cons] at h
          rcases h with h1 | h2
          · exact absurd h1 hxp
          · exact Or.inr h2
      rcases h2 with h2 | h2
      · left
        simp [updateBuf, hxp, h2]
      · exact Or.inr h2

theorem execPlan_not_written : ∀ (plan : List CompiledDispatch) (e : String → List Nat)
    (x : String), x ∉ planWrites plan → execPlan e plan x = e x := by
  intro plan
  induction plan with
  | nil => intro e x _; rfl
  | cons d rest ih =>
    intro e x h
    have hxw : x ∉ d.writes := fun hw => h (by
      simp only [planWrites, List.foldr_cons, List.mem_append]
      exact Or.inl hw)
    have hxr : x ∉ planWrites rest := fun hw => h (by
      simp only [planWrites, List.foldr_cons, List.mem_append]
      exact Or.inr hw)
    show execPlan (execDispatch e d) rest x = e x
    rw [ih _ x hxr]
    unfold execDispatch
    apply uploadAll_not_mem
    intro hmem
    obtain ⟨ab, hab, hfst⟩ := List.mem_map.mp hmem
    have hin := (List.of_mem_zip hab).1
    exact hxw (hfst ▸ hin)

theorem covered_mono : ∀ (plan : List CompiledDispatch) (S T : String → Prop),
    (∀ x, S x → T x) → Covered S plan → Covered T plan := by
  intro plan
  induction plan with
  | nil => intro S T _ _; trivial
  | cons d rest ih =>
    intro S T hst hcov
    obtain ⟨h1, h2⟩ := hcov
    refine ⟨fun r hr => hst r (h1 r hr), ih _ _ ?_ h2⟩
    intro x hx
    rcases hx with hx | hx
    · exact Or.inl (hst x hx)
    · exact Or.inr hx

theorem execPlan_agree : ∀ (plan : List CompiledDispatch) (S : String → Prop)
    (e₁ e₂ : String → List Nat),
    (∀ d ∈ plan, ∀ args, (d.shader args).length = d.writes.length) →
    Covered S plan →
    (∀ x, S x → e₁ x = e₂ x) →
    ∀ x, S x ∨ x ∈ planWrites plan → execPlan e₁ plan x = execPlan e₂ plan x := by
  intro plan
  induction plan with
  | nil =>
    intro S e₁ e₂ _ _ hagree x hx
    rcases hx with hx | hx
    · exact hagree x hx
    · simp [planWrites] at hx
  | cons d rest ih =>
    intro S e₁ e₂ harity hcov hagree x hx
    obtain ⟨hreads, hcov2⟩ := hcov
    have hargs : d.reads.map e₁ = d.reads.map e₂ := by
      apply List.map_congr_left
      intro r hr
      exact hagree r (hreads r hr)
    have hstep : ∀ y, S y ∨ y ∈ d.writes → execDispatch e₁ d y = execDispatch e₂ d y := by
      intro y hy
      unfold execDispatch
      rw [hargs]
      apply uploadAll_agree
      by_cases hms : y ∈ (d.writes.zip (d.shader (d.reads.map e₂))).map Prod.fst
      · exact Or.inr hms
      · left
        rcases hy with hy | hy
        · exact hagree y hy
        · exfalso
          apply hms
          have hlen : d.writes.length ≤ (d.shader (d.reads.map e₂)).length :=
            (harity d (by simp) (d.reads.map e₂)).symm.le
          rw [List.map_fst_zip _ _ hlen]
          exact hy
    have harity2 : ∀ d2 ∈ rest, ∀ args, (d2.shader args).length = d2.writes.length :=
      fun d2 hd2 => harity d2 (by simp [hd2])
    show execPlan (execDispatch e₁ d) rest x = execPlan (execDispatch e₂ d) rest x
    apply ih _ _ _ harity2 hcov2 hstep
    rcases hx with hx | hx
    · exact Or.inl (Or.inl hx)
    · have hx2 : x ∈ d.writes ++ planWrites rest := by simpa [planWrites] using hx
      rcases List.mem_append.mp hx2 with h1 | h2
      · exact Or.inl (Or.inr h1)
      · exact Or.inr h2

/-- C2: inference is deterministic across calls on one session.  Under the
compiled-plan invariants (every dispatch reads only declared inputs, never-
written buffers or buffers written earlier; each shader writes exactly its
declared output buffers), running `Session::run` a second time with identical
inputs on the session returned by the first call yields an output mapping
byte-identical to the first one. -/
theorem run_twice_same_outputs (gm : GpuModel) (inputs : List (String × List Nat))
    (harity : ∀ d ∈ gm.plan, ∀ args, (d.shader args).length = d.writes.length)
    (hcov : Covered (baseNames gm) gm.plan)
    (hvalid : ∀ n ∈ gm.inputNames, n ∈ inputs.map Prod.fst) :
    runAgainOutputs ⟨gm⟩ inputs = runOutputs ⟨gm⟩ inputs := by
  have hfind : gm.inputNames.find? (fun i => decide (i ∉ inputs.map Prod.fst)) = none := by
    rw [List.find?_eq_none]
    intro n hn
    simp only [decide_eq_true_eq]
    exact fun hc => hc (hvalid n hn)
  have hbase : ∀ x, (x ∈ inputs.map Prod.fst ∨ x ∉ planWrites gm.plan) →
      uploadAll (execPlan (uploadAll gm.buffers inputs) gm.plan) inputs x
        = uploadAll gm.buffers inputs x := by
    intro x hx
    by_cases hk : x ∈ inputs.map Prod.fst
    · exact uploadAll_agree inputs _ _ x (Or.inr hk)
    · rcases hx with hx | hx
      · exact absurd hx hk
      · rw [uploadAll_not_mem _ _ _ hk, uploadAll_not_mem _ _ _ hk,
          execPlan_not_written _ _ _ hx]
        exact uploadAll_not_mem _ _ _ hk
  have hcov0 : Covered (fun x => x ∈ inputs.map Prod.fst ∨ x ∉ planWrites gm.plan) gm.plan := by
    refine covered_mono _ _ _ ?_ hcov
    intro x hx
    rcases hx with hx | hx
    · exact Or.inl (hvalid x hx)
    · exact Or.inr hx
  have henv : ∀ x,
      execPlan (uploadAll (execPlan (uploadAll gm.buffers inputs) gm.plan) inputs) gm.plan x
        = execPlan (uploadAll gm.buffers inputs) gm.plan x := by
    intro x
    by_cases hw : x ∈ planWrites gm.plan
    · exact execPlan_agree gm.plan _ _ _ harity hcov0 hbase x (Or.inr hw)
    · exact execPlan_agree gm.plan _ _ _ harity hcov0 hbase x (Or.inl (Or.inr hw))
  unfold runAgainOutputs runOutputs Session.run
  simp only [GpuModel.infer, hfind]
  simp [henv]

theorem run_twice_same_outputs_witness :
    (∀ d ∈ gmCopy.plan, ∀ args, (d.shader args).length = d.writes.length)
    ∧ Covered (baseNames gmCopy) gmCopy.plan
    ∧ (∀ n ∈ gmCopy.inputNames, n ∈ inputsCopy.map Prod.fst)
    ∧ runAgainOutputs ⟨gmCopy⟩ inputsCopy = runOutputs ⟨gmCopy⟩ inputsCopy := by
  have harity : ∀ d ∈ gmCopy.plan, ∀ args, (d.shader args).length = d.writes.length := by
    intro d hd args
    simp only [gmCopy, List.mem_singleton] at hd
    subst hd
    rfl
  have hcov : Covered (baseNames gmCopy) gmCopy.plan := by
    show Covered (baseNames gmCopy) [copyDispatch]
    refine ⟨?_, trivial⟩
    intro r hr
    simp only [copyDispatch, List.mem_singleton] at hr
    subst hr
    left
    simp [gmCopy]
  have hvalid : ∀ n ∈ gmCopy.inputNames, n ∈ inputsCopy.map Prod.fst := by
    intro n hn
    simp only [gmCopy, List.mem_singleton] at hn
    subst hn
    simp [inputsCopy]
  exact ⟨harity, hcov, hvalid, run_twice_same_outputs gmCopy inputsCopy harity hcov hvalid⟩

/-- C6: calling `Session::run` with an input mapping that omits a declared
required input fails with `InvalidInput` naming a missing declared input, and
no output mapping is returned. -/
theorem run_missing_input_error (gm : GpuModel) (inputs : List (String × List Nat))
    (name : String) (hdecl : name ∈ gm.inputNames) (hmiss : name ∉ inputs.map Prod.fst) :
    ∃ m, Session.run ⟨gm⟩ inputs = .error (.InvalidInput m)
      ∧ m ∈ gm.inputNames ∧ m ∉ inputs.map Prod.fst := by
  cases hfind : gm.inputNames.find? (fun i => decide (i ∉ inputs.map Prod.fst)) with
  | none =>
    exfalso
    have hnone := List.find?_eq_none.mp hfind name hdecl
    simp only [decide_eq_true_eq] at hnone
    exact hnone hmiss
  | some m =>
    refine ⟨m, ?_, ?_, ?_⟩
    · simp only [Session.run, GpuModel.infer, hfind]
    · exact List.mem_of_find?_eq_some hfind
    · have hp := List.find?_some hfind
      simpa using hp

theorem run_missing_input_error_witness :
    "x" ∈ gmMissing.inputNames
    ∧ "x" ∉ (([] : List (String × List Nat)).map Prod.fst)
    ∧ ∃ m, Session.run ⟨gmMissing⟩ [] = .error (.InvalidInput m)
        ∧ m ∈ gmMissing.inputNames ∧ m ∉ (([] : List (String × List Nat)).map Prod.fst) :=
  ⟨by simp [gmMissing], by simp,
    run_missing_input_error gmMissing [] "x" (by simp [gmMissing]) (by simp)⟩
